import Mathlib

/-!
Verification model of telegramify-go.

Go strings are modelled as lists of bytes (`List Nat`), and the semantics of
Go's `for _, r := range text` loop (UTF-8 decoding with U+FFFD replacement for
invalid sequences, consuming one byte per invalid position) is modelled by
`goDecodeRune` / `goDecodeList`, following the rules of Go's `unicode/utf8`
package.  All functions of the repository that index strings by byte position
(`UTF16Len`, `buildUTF16OffsetTable`, `findNewlinePositions`, `SplitEntities`,
`stripNewlinesAdjust`, `stripNewlinesAdjustInternal`, `sliceTextEntities`) are
translated over this byte-level representation.

The walker (`internal/converter/walker.go`) operates on well-formed strings it
builds itself, so its model uses Lean `String` values, with Go byte lengths
recovered through `Char.utf8Size`.
-/

namespace Telegramify

/-- Whether a byte is a UTF-8 continuation byte (0x80..0xBF). -/
def contByte (b : Nat) : Bool :=
  decide (0x80 ≤ b) && decide (b ≤ 0xBF)

/-- Second-byte acceptance range for a three-byte UTF-8 sequence, per Go's
`unicode/utf8` accept-range table. -/
def utf8Accept3 (b0 b1 : Nat) : Bool :=
  if b0 = 0xE0 then decide (0xA0 ≤ b1) && decide (b1 ≤ 0xBF)
  else if b0 = 0xED then decide (0x80 ≤ b1) && decide (b1 ≤ 0x9F)
  else contByte b1

/-- Second-byte acceptance range for a four-byte UTF-8 sequence, per Go's
`unicode/utf8` accept-range table. -/
def utf8Accept4 (b0 b1 : Nat) : Bool :=
  if b0 = 0xF0 then decide (0x90 ≤ b1) && decide (b1 ≤ 0xBF)
  else if b0 = 0xF4 then decide (0x80 ≤ b1) && decide (b1 ≤ 0x8F)
  else contByte b1

/-- Go's `utf8.DecodeRuneInString` on the byte list `b0 :: rest`: returns the
decoded rune together with the number of bytes consumed from `rest` (total
size is that number plus one).  Invalid or truncated sequences decode to
U+FFFD consuming the single lead byte, exactly as in Go. -/
def goDecodeRune (b0 : Nat) (rest : List Nat) : Nat × Nat :=
  if b0 < 0x80 then (b0, 0)
  else if b0 < 0xC2 then (0xFFFD, 0)
  else if b0 < 0xE0 then
    match rest with
    | b1 :: _ =>
      if contByte b1 then ((b0 % 0x20) * 0x40 + b1 % 0x40, 1) else (0xFFFD, 0)
    | [] => (0xFFFD, 0)
  else if b0 < 0xF0 then
    match rest with
    | b1 :: b2 :: _ =>
      if utf8Accept3 b0 b1 && contByte b2 then
        ((b0 % 0x10) * 0x1000 + (b1 % 0x40) * 0x40 + b2 % 0x40, 2)
      else (0xFFFD, 0)
    | _ => (0xFFFD, 0)
  else if b0 < 0xF5 then
    match rest with
    | b1 :: b2 :: b3 :: _ =>
      if utf8Accept4 b0 b1 && contByte b2 && contByte b3 then
        ((b0 % 0x8) * 0x40000 + (b1 % 0x40) * 0x1000 + (b2 % 0x40) * 0x40 + b3 % 0x40, 3)
      else (0xFFFD, 0)
    | _ => (0xFFFD, 0)
  else (0xFFFD, 0)

/-- Decode a whole byte list into its sequence of (rune, size-in-bytes) pairs,
the semantics of Go's `for i, r := range text`.  The fuel argument only bounds
the number of iterations; since every step consumes at least one byte, fuel
equal to the list length (as supplied by `goDecodeList`) is always enough. -/
def goDecodeListAux : Nat → List Nat → List (Nat × Nat)
  | _, [] => []
  | 0, _ :: _ => []
  | fuel + 1, b :: rest =>
    let rk := goDecodeRune b rest
    (rk.1, rk.2 + 1) :: goDecodeListAux fuel (rest.drop rk.2)

/-- The decoded (rune, size) sequence of a Go string given as bytes. -/
def goDecodeList (bs : List Nat) : List (Nat × Nat) :=
  goDecodeListAux bs.length bs

/-- The decoded rune sequence of a Go string given as bytes; the semantics of
Go's `[]rune(text)` conversion. -/
def goDecodeRunes (bs : List Nat) : List Nat :=
  (goDecodeList bs).map Prod.fst

/-- UTF-16 code units contributed by one rune: 2 above the BMP, 1 otherwise
(the per-rune increment used by `UTF16Len` and `buffer.utf16Len`). -/
def utf16Weight (r : Nat) : Nat :=
  if 0xFFFF < r then 2 else 1

/-- `UTF16Len` from converter.go (also `buffer.utf16Len`): the length of a
Go string in UTF-16 code units, counting 2 per rune above 0xFFFF. -/
def UTF16Len (bs : List Nat) : Nat :=
  ((goDecodeList bs).map (fun rk => utf16Weight rk.1)).sum

/-- Go's `len(string(r))`: the byte length of the UTF-8 re-encoding of a rune.
Surrogates and out-of-range values encode as U+FFFD, hence 3 bytes.  This
differs from the width the range loop consumed when the rune came from invalid
input (U+FFFD re-encodes to 3 bytes but was decoded from 1). -/
def goRuneLen (r : Nat) : Nat :=
  if r < 0x80 then 1
  else if r < 0x800 then 2
  else if r < 0x10000 then 3
  else if r ≤ 0x10FFFF then 4
  else 3

/-- The table `buildUTF16OffsetTable` computes in the drift-free case, where
every rune's re-encoded length equals its decoded width (in particular on
valid UTF-8): each rune start carries the running offset, the bytes inside a
multi-byte rune keep the zero fill, and a final entry carries the total. -/
def offsetTableOf : List (Nat × Nat) → Nat → List Nat
  | [], cum => [cum]
  | rk :: rest, cum =>
    (cum :: List.replicate (rk.2 - 1) 0) ++ offsetTableOf rest (cum + utf16Weight rk.1)

/-- The assignment loop of `buildUTF16OffsetTable`: for each decoded rune,
write the running offset at `bytePos` (a panic — index out of range, modelled
as `none` — when `bytePos` is past the table), then advance `bytePos` by the
rune's re-encoded length `len(string(r))`, exactly as the Go loop does; a
final write puts the total at the last slot. -/
def buildTableGo : List (Nat × Nat) → List Nat → Nat → Nat → Option (List Nat)
  | [], offsets, cum, _ => some (offsets.set (offsets.length - 1) cum)
  | rk :: rest, offsets, cum, bytePos =>
    if bytePos < offsets.length then
      buildTableGo rest (offsets.set bytePos cum) (cum + utf16Weight rk.1)
        (bytePos + goRuneLen rk.1)
    else none

/-- `buildUTF16OffsetTable` from converter.go: `result[i]` is the cumulative
UTF-16 offset at byte position `i`.  The Go loop advances its index by
`len(string(r))`, which re-encodes the rune: on invalid UTF-8 the written
positions drift (U+FFFD decoded from one byte re-encodes to three) and the
assignment can panic with index out of range, modelled as `none`. -/
def buildUTF16OffsetTable (bs : List Nat) : Option (List Nat) :=
  buildTableGo (goDecodeList bs) (List.replicate (bs.length + 1) 0) 0 0

/-- The position loop of `findNewlinePositions`: for each decoded rune the Go
code recomputes the byte position by summing `len(string(r))` over the
previous runes, so the recorded positions use re-encoded widths (drifting on
invalid UTF-8) rather than consumed widths. -/
def newlinePositionsGo : List (Nat × Nat) → Nat → List Nat
  | [], _ => []
  | rk :: rest, bytePos =>
    (if rk.1 = 10 then [bytePos + 1] else []) ++
      newlinePositionsGo rest (bytePos + goRuneLen rk.1)

/-- `findNewlinePositions` from converter.go: the recorded position after each
`\n` rune is the sum of the re-encoded lengths of the preceding runes plus
one (which is the true byte position plus one exactly when no preceding rune
came from invalid UTF-8). -/
def findNewlinePositions (bs : List Nat) : List Nat :=
  newlinePositionsGo (goDecodeList bs) 0

/-- `types.MessageEntity`: a Telegram message entity.  Offsets and lengths are
Go `int`s, hence `Int` here; the Go field `Type` is called `etype` because
`Type` is reserved in Lean. -/
structure MessageEntity where
  etype : String
  offset : Int
  length : Int
  url : String
  language : String
  customEmojiID : String
deriving DecidableEq, Repr

/-- `TextChunk` from converter.go: a chunk of text with its entities. -/
structure TextChunk where
  text : List Nat
  entities : List MessageEntity
deriving DecidableEq, Repr

/-- The inner scan of the newline-split selection in `SplitEntities`: walks the
candidate split points, skipping those at or before `byteStart`, remembering
the last one whose table offset fits the budget, and stopping at the first one
that does not.  `acc` starts at `-1` as in the Go code. -/
def newlineBestSplit (table : List Nat) (byteStart : Nat) (budget : Int) :
    List Nat → Int → Int
  | [], acc => acc
  | sp :: rest, acc =>
    if sp ≤ byteStart then newlineBestSplit table byteStart budget rest acc
    else if sp < table.length ∧ ((table.getD sp 0 : Int) ≤ budget) then
      newlineBestSplit table byteStart budget rest (sp : Int)
    else acc

/-- The hard-split scan of `SplitEntities`: starting at `i = byteStart + 1`,
find the first byte position whose table offset exceeds the budget and return
the position just before it.  The fuel only bounds iterations; `hardSplit`
supplies `textLen + 1`, enough to reach `i = textLen` from any start. -/
def hardSplitScan (table : List Nat) (budget : Int) (textLen : Nat) :
    Nat → Nat → Option Nat
  | 0, _ => none
  | fuel + 1, i =>
    if i ≤ textLen then
      if i < table.length ∧ (budget < (table.getD i 0 : Int)) then some (i - 1)
      else hardSplitScan table budget textLen fuel (i + 1)
    else none

/-- The hard-split choice of `SplitEntities`: the scan result, defaulting to
`byteStart` when the scan finds nothing, forced to `byteStart + 1` when no
progress was made. -/
def hardSplit (table : List Nat) (budget : Int) (textLen : Nat) (byteStart : Nat) : Nat :=
  let b := (hardSplitScan table budget textLen (textLen + 1) (byteStart + 1)).getD byteStart
  if b = byteStart then byteStart + 1 else b

/-- One split decision of `SplitEntities`: prefer the newline-based split;
fall back to the hard split when none was found or no progress was made. -/
def chooseSplit (table : List Nat) (splitPoints : List Nat) (textLen : Nat)
    (byteStart : Nat) (budget : Int) : Nat :=
  let nl := newlineBestSplit table byteStart budget splitPoints (-1)
  if nl = -1 ∨ nl = (byteStart : Int) then hardSplit table budget textLen byteStart
  else nl.toNat

/-- The greedy chunk-range loop of `SplitEntities`: from `byteStart`, either
the remaining text fits the budget and forms the final range, or a split point
is chosen and the loop continues from it.  The fuel only bounds iterations;
every chunk consumes at least one byte, so fuel `textLen` (as supplied by
`SplitEntities`) is always enough. -/
def splitRangesAux (table : List Nat) (splitPoints : List Nat) (textLen : Nat)
    (maxUTF16Len : Int) : Nat → Nat → List (Nat × Nat)
  | 0, _ => []
  | fuel + 1, byteStart =>
    if byteStart < textLen then
      let utf16Budget : Int := (table.getD byteStart 0 : Int) + maxUTF16Len
      if (table.getD textLen 0 : Int) ≤ utf16Budget then [(byteStart, textLen)]
      else
        let bestSplit := chooseSplit table splitPoints textLen byteStart utf16Budget
        (byteStart, bestSplit) ::
          splitRangesAux table splitPoints textLen maxUTF16Len fuel bestSplit
    else []

/-- `SplitEntities` from converter.go: splits `(text, entities)` into chunks
not exceeding `maxUTF16Len` UTF-16 code units, clipping entities that span a
chunk boundary into both chunks.  A `none` result models the index-out-of-range
panic of `buildUTF16OffsetTable` on some invalid-UTF-8 inputs; on every
well-formed text the result is `some`. -/
def SplitEntities (text : List Nat) (entities : List MessageEntity)
    (maxUTF16Len : Int) : Option (List TextChunk) :=
  let total := UTF16Len text
  if (total : Int) ≤ maxUTF16Len then some [{ text := text, entities := entities }]
  else
    match buildUTF16OffsetTable text with
    | none => none
    | some offsets =>
      let splitPoints := findNewlinePositions text
      let chunksRanges := splitRangesAux offsets splitPoints text.length maxUTF16Len text.length 0
      some (chunksRanges.map fun cr =>
        let chunkByteStart := cr.1
        let chunkByteEnd := cr.2
        let chunkText := (text.drop chunkByteStart).take (chunkByteEnd - chunkByteStart)
        let chunkUTF16Start : Int := offsets.getD chunkByteStart 0
        let chunkUTF16End : Int := offsets.getD chunkByteEnd 0
        let chunkEntities := entities.filterMap fun ent =>
          let entStart := ent.offset
          let entEnd := ent.offset + ent.length
          if entEnd ≤ chunkUTF16Start ∨ entStart ≥ chunkUTF16End then none
          else
            let clippedStart := max entStart chunkUTF16Start
            let clippedEnd := min entEnd chunkUTF16End
            let clippedLength := clippedEnd - clippedStart
            if clippedLength ≤ 0 then none
            else some { etype := ent.etype, offset := clippedStart - chunkUTF16Start,
                        length := clippedLength, url := ent.url, language := ent.language,
                        customEmojiID := ent.customEmojiID }
        { text := chunkText, entities := chunkEntities })

/-- The leading-newline count of `stripNewlinesAdjust`: the Go loop walks
runes from the start and stops at the first rune that is not `\n`. -/
def countLeadingNewlines (bs : List Nat) : Nat :=
  ((goDecodeRunes bs).takeWhile (fun r => decide (r = 10))).length

/-- The trailing-newline count of `stripNewlinesAdjust`: the Go loop walks
`[]rune(text)` from the end and stops at the first rune that is not `\n`. -/
def countTrailingNewlines (bs : List Nat) : Nat :=
  ((goDecodeRunes bs).reverse.takeWhile (fun r => decide (r = 10))).length

/-- `stripNewlinesAdjust` from converter.go: strips leading/trailing newlines
and adjusts entity offsets.  The Go slice expression `text[leading:end]`
panics when `leading > end` (which happens exactly on text made of newlines
only); that panic is modelled as `none`. -/
def stripNewlinesAdjust (text : List Nat) (entities : List MessageEntity) :
    Option (List Nat × List MessageEntity) :=
  let leading := countLeadingNewlines text
  let trailing := countTrailingNewlines text
  if leading = 0 ∧ trailing = 0 then some (text, entities)
  else
    let endPos := if 0 < trailing then text.length - trailing else text.length
    if leading ≤ endPos then
      let stripped := (text.drop leading).take (endPos - leading)
      if stripped = [] then some ([], [])
      else
        let leadingUTF16 : Int := leading
        let newUTF16Len : Int := UTF16Len stripped
        let adjusted := entities.filterMap fun ent =>
          let newOffset := ent.offset - leadingUTF16
          let newEnd := newOffset + ent.length
          if newEnd ≤ 0 ∨ newOffset ≥ newUTF16Len then none
          else
            let newOffset2 := max 0 newOffset
            let newEnd2 := min newEnd newUTF16Len
            let newLength := newEnd2 - newOffset2
            if newLength ≤ 0 then none
            else some { etype := ent.etype, offset := newOffset2, length := newLength,
                        url := ent.url, language := ent.language,
                        customEmojiID := ent.customEmojiID }
        some (stripped, adjusted)
    else none

/-- `stripNewlinesAdjustInternal` from pipeline.go: the same trim as
`stripNewlinesAdjust` but with the explicit bounds check
(`if leading >= end { return "", [] }`) before slicing, so it is total. -/
def stripNewlinesAdjustInternal (text : List Nat) (entities : List MessageEntity) :
    List Nat × List MessageEntity :=
  let leading := countLeadingNewlines text
  let trailing := countTrailingNewlines text
  if leading = 0 ∧ trailing = 0 then (text, entities)
  else
    let endPos := if 0 < trailing then text.length - trailing else text.length
    if endPos ≤ leading then ([], [])
    else
      let stripped := (text.drop leading).take (endPos - leading)
      if stripped = [] then ([], [])
      else
        let leadingUTF16 : Int := leading
        let newUTF16Len : Int := UTF16Len stripped
        let adjusted := entities.filterMap fun ent =>
          let newOffset := ent.offset - leadingUTF16
          let newEnd := newOffset + ent.length
          if newEnd ≤ 0 ∨ newOffset ≥ newUTF16Len then none
          else
            let newOffset2 := if newOffset < 0 then 0 else newOffset
            let newEnd2 := if newEnd > newUTF16Len then newUTF16Len else newEnd
            let newLength := newEnd2 - newOffset2
            if newLength ≤ 0 then none
            else some { etype := ent.etype, offset := newOffset2, length := newLength,
                        url := ent.url, language := ent.language,
                        customEmojiID := ent.customEmojiID }
        (stripped, adjusted)

/-- `sliceTextEntities` from pipeline.go: extracts `fullText[pyStart:pyEnd]`
together with the entities overlapping `[utf16Start, utf16End)`, their offsets
re-based to the slice. -/
def sliceTextEntities (fullText : List Nat) (fullEntities : List MessageEntity)
    (pyStart pyEnd : Nat) (utf16Start utf16End : Int) :
    List Nat × List MessageEntity :=
  let chunkText := (fullText.drop pyStart).take (pyEnd - pyStart)
  let chunkEntities := fullEntities.filterMap fun ent =>
    let entStart := ent.offset
    let entEnd := ent.offset + ent.length
    if entEnd ≤ utf16Start ∨ entStart ≥ utf16End then none
    else
      let clippedStart := if entStart < utf16Start then utf16Start else entStart
      let clippedEnd := if entEnd > utf16End then utf16End else entEnd
      let clippedLength := clippedEnd - clippedStart
      if clippedLength ≤ 0 then none
      else some { etype := ent.etype, offset := clippedStart - utf16Start,
                  length := clippedLength, url := ent.url, language := ent.language,
                  customEmojiID := ent.customEmojiID }
  (chunkText, chunkEntities)

/-! ### Walker model (internal/converter/walker.go)

The walker only ever writes well-formed text, so its strings are modelled as
Lean `String` values; Go byte lengths are recovered via `Char.utf8Size`. -/

/-- UTF-16 length of a well-formed string, per rune: 2 above the BMP, 1
otherwise (`buffer.utf16Len` applied to valid text). -/
def utf16LenStr (s : String) : Nat :=
  (s.toList.map (fun c => if 0xFFFF < c.toNat then 2 else 1)).sum

/-- Go's `len(s)` on a well-formed string: its UTF-8 byte length. -/
def goStrLenBytes (s : String) : Nat :=
  (s.toList.map Char.utf8Size).sum

/-- `isDigits` from preprocess.go: every rune is an ASCII digit and the string
is non-empty. -/
def isDigits (s : String) : Bool :=
  (s.toList.all fun ch => decide ('0' ≤ ch) && decide (ch ≤ '9')) &&
    decide (0 < s.toList.length)

/-- `validateTelegramEmoji` from preprocess.go: returns the id when the URL is
`tg://emoji?id=` followed by a 19-byte string of digits, else the empty
string. -/
def validateTelegramEmoji (url : String) : String :=
  let pfx := "tg://emoji?id="
  if pfx.toList.isPrefixOf url.toList then
    let emojiID := (url.toList.drop pfx.toList.length).asString
    if goStrLenBytes emojiID = 19 ∧ isDigits emojiID then emojiID else ""
  else ""

/-- `converter.EntityScope`: a still-open formatting span. -/
structure EntityScope where
  entityType : String
  startOffset : Nat
  url : String
  language : String
  customEmojiID : String
deriving DecidableEq, Repr

/-- The walker state relevant to entity handling: the text buffer (content and
UTF-16 offset, per `buffer.TextBuffer`), the entity scope stack (top of stack
at the head of the list; Go appends to the end of its slice), and the emitted
entities. -/
structure WalkerState where
  bufText : String
  bufUTF16 : Nat
  entityStack : List EntityScope
  entities : List MessageEntity
deriving DecidableEq, Repr

/-- The walker state produced by `NewEventWalker`: everything empty. -/
def initialWalker : WalkerState :=
  { bufText := "", bufUTF16 := 0, entityStack := [], entities := [] }

/-- `TextBuffer.Write`: appends a fragment and advances the UTF-16 counter. -/
def bufWrite (w : WalkerState) (s : String) : WalkerState :=
  { w with bufText := w.bufText ++ s, bufUTF16 := w.bufUTF16 + utf16LenStr s }

/-- `EventWalker.pushEntity`: pushes a scope starting at the current buffer
offset; the payload goes to `url` for `text_link` and to `customEmojiID` for
`custom_emoji`. -/
def pushEntity (w : WalkerState) (entityType : String) (urlOrEmojiID : String) :
    WalkerState :=
  let scope : EntityScope :=
    { entityType := entityType, startOffset := w.bufUTF16,
      url := if entityType = "text_link" then urlOrEmojiID else "",
      language := "",
      customEmojiID := if entityType = "custom_emoji" then urlOrEmojiID else "" }
  { w with entityStack := scope :: w.entityStack }

/-- `EventWalker.finalizeEntity`: turns a scope into an entity whose length is
the offset advance since the scope opened; non-positive lengths are dropped.
(The Go code copies `URL`/`Language`/`CustomEmojiID` only when non-empty;
since the zero value of those fields is the empty string, the unconditional
copy here is the same function.) -/
def finalizeEntity (w : WalkerState) (scope : EntityScope) : WalkerState :=
  let length : Int := (w.bufUTF16 : Int) - (scope.startOffset : Int)
  if length ≤ 0 then w
  else
    { w with entities := w.entities ++
        [{ etype := scope.entityType, offset := (scope.startOffset : Int),
           length := length, url := scope.url, language := scope.language,
           customEmojiID := scope.customEmojiID }] }

/-- The scope search of `EventWalker.popEntity`: find the topmost scope of the
given type (the stack's top is the list head) and remove it. -/
def popScope : List EntityScope → String → Option (EntityScope × List EntityScope)
  | [], _ => none
  | s :: rest, t =>
    if s.entityType = t then some (s, rest)
    else
      match popScope rest t with
      | some (sc, rest2) => some (sc, s :: rest2)
      | none => none

/-- `EventWalker.popEntity`: pops the topmost scope of the given type and
finalizes it; when no scope of that type is open, nothing happens. -/
def popEntity (w : WalkerState) (entityType : String) : WalkerState :=
  match popScope w.entityStack entityType with
  | some (scope, rest) => finalizeEntity { w with entityStack := rest } scope
  | none => w

/-- `EventWalker.popEntityAny`: pops and finalizes the topmost scope, whatever
its type; on an empty stack, nothing happens. -/
def popEntityAny (w : WalkerState) : WalkerState :=
  match w.entityStack with
  | [] => w
  | scope :: rest => finalizeEntity { w with entityStack := rest } scope

/-- `EventWalker.onStartLink`: a destination recognized by
`validateTelegramEmoji` pushes a `custom_emoji` scope; otherwise a non-empty
destination pushes a `text_link` scope; an empty destination pushes nothing. -/
def onStartLink (w : WalkerState) (destURL : String) : WalkerState :=
  let emojiID := validateTelegramEmoji destURL
  if emojiID ≠ "" then pushEntity w "custom_emoji" emojiID
  else if destURL ≠ "" then pushEntity w "text_link" destURL
  else w

/-- The walker's traversal of one `ast.Link` node whose child is a text node:
`Walk` calls `onStartLink` on entry, the child text is written to the buffer
by `onText`, and on exit `Walk` runs `popEntity("text_link")`. -/
def walkLinkNode (w : WalkerState) (destURL : String) (content : String) :
    WalkerState :=
  popEntity (bufWrite (onStartLink w destURL) content) "text_link"

/-- `types.RenderConfig` (symbols omitted: only `CiteExpandable` feeds the
entity post-processing). -/
structure RenderConfig where
  citeExpandable : Bool
deriving DecidableEq, Repr

/-- `types.DefaultRenderConfig`: `CiteExpandable` is true. -/
def DefaultRenderConfig : RenderConfig :=
  { citeExpandable := true }

/-- The `Document` exit post-processing of `EventWalker.Walk`: when
`CiteExpandable` is set, every `blockquote` entity longer than 200 UTF-16
units becomes `expandable_blockquote`. -/
def promoteBlockquotes (citeExpandable : Bool) (entities : List MessageEntity) :
    List MessageEntity :=
  if citeExpandable then
    entities.map fun e =>
      if e.etype = "blockquote" ∧ 200 < e.length then
        { e with etype := "expandable_blockquote" }
      else e
  else entities

/-! ### Pipeline model (pipeline.go) -/

/-- `converter.Segment`: position information of a code block or mermaid
diagram. -/
structure Segment where
  kind : String
  textStart : Nat
  textEnd : Nat
  utf16Start : Nat
  utf16End : Nat
  language : String
  rawCode : String
deriving DecidableEq, Repr

/-- The line count used by `ProcessMarkdown`:
`strings.Count(rawCode, "\n") + 1`. -/
def goLineCount (rawCode : String) : Nat :=
  rawCode.toList.count '\x0A' + 1

/-- The first pass of `ProcessMarkdown`: mermaid segments are always
extractable; code-block segments only when their raw code has more than 50
lines. -/
def extractableSegments (segments : List Segment) : List Segment :=
  segments.filter fun s =>
    decide (s.kind = "mermaid") ||
      (decide (s.kind = "code_block") && decide (50 < goLineCount s.rawCode))

/-- The fields of the `File` content produced for an externalized code
block. -/
structure FileContent where
  fileName : String
  fileData : String
  sourceType : String
  language : String
deriving DecidableEq, Repr

/-- `handleCodeBlockAsFile` from pipeline.go: builds a `File` whose data is
the raw code bytes; the filename comes from `util.GetFilename`, an external
filename-inference collaborator passed in as a parameter here. -/
def handleCodeBlockAsFile (getFilename : String → String → String)
    (seg : Segment) : FileContent :=
  let lang := if seg.language = "" then "txt" else seg.language
  { fileName := getFilename seg.rawCode lang, fileData := seg.rawCode,
    sourceType := "file", language := lang }

/-- One element of `ProcessMarkdown`'s result list: a `Text` message, a `File`
attachment, or a `Photo` (rendered mermaid diagram). -/
inductive Content where
  | text (t : List Nat) (entities : List MessageEntity) : Content
  | file (f : FileContent) : Content
  | photo (fileName : String) (fileData : List Nat) (caption : String) : Content
deriving DecidableEq, Repr

/-- The loop of `appendTextChunks`: each chunk of `SplitEntities` is trimmed
by `stripNewlinesAdjust` (which can panic, hence the `Option`) and appended as
a `Text` content when the trimmed text is non-empty. -/
def appendChunksLoop : List TextChunk → List Content → Option (List Content)
  | [], acc => some acc
  | chunk :: rest, acc =>
    match stripNewlinesAdjust chunk.text chunk.entities with
    | none => none
    | some (chunkText, chunkEntities) =>
      appendChunksLoop rest
        (if chunkText ≠ [] then acc ++ [Content.text chunkText chunkEntities] else acc)

/-- `appendTextChunks` from pipeline.go: split the text at the maximum
message length and append the non-empty trimmed chunks as `Text` contents; a
panic inside `SplitEntities` propagates. -/
def appendTextChunks (result : List Content) (text : List Nat)
    (entities : List MessageEntity) (maxMessageLength : Int) :
    Option (List Content) :=
  match SplitEntities text entities maxMessageLength with
  | none => none
  | some chunks => appendChunksLoop chunks result

/-- `handleMermaid` from pipeline.go, with the rendering collaborator passed
as a parameter (`none` models a rendering failure): success appends a `Photo`,
failure appends the raw code as a fallback `File` with source type
`ContentTypeMermaid`. -/
def handleMermaid (mermaidRender : String → Option (List Nat × String))
    (result : List Content) (seg : Segment) : List Content :=
  match mermaidRender seg.rawCode with
  | none =>
    let fallback : FileContent :=
      { fileName := "invalid_mermaid.txt", fileData := seg.rawCode,
        sourceType := "mermaid", language := "" }
    result ++ [Content.file fallback]
  | some (imgData, caption) =>
    result ++ [Content.photo "mermaid.webp" imgData caption]

/-- The segment-dispatch of `ProcessMarkdown`'s main loop: mermaid segments go
to `handleMermaid`, code-block segments to `handleCodeBlockAsFile`. -/
def emitSegment (getFilename : String → String → String)
    (mermaidRender : String → Option (List Nat × String))
    (result : List Content) (seg : Segment) : List Content :=
  if seg.kind = "mermaid" then handleMermaid mermaidRender result seg
  else if seg.kind = "code_block" then
    result ++ [Content.file (handleCodeBlockAsFile getFilename seg)]
  else result

/-- The text-before-segment emission of `ProcessMarkdown`'s main loop: when
the cursor is before the segment, the intervening text is sliced, trimmed by
`stripNewlinesAdjustInternal`, and appended through `appendTextChunks` when
non-empty. -/
def preSegmentText (fullText : List Nat) (fullEntities : List MessageEntity)
    (maxMessageLength : Int) (result : List Content)
    (cursorPy cursorUTF16 : Nat) (seg : Segment) : Option (List Content) :=
  if cursorPy < seg.textStart then
    let sl := sliceTextEntities fullText fullEntities cursorPy seg.textStart
      (cursorUTF16 : Int) (seg.utf16Start : Int)
    let st := stripNewlinesAdjustInternal sl.1 sl.2
    if st.1 ≠ [] then appendTextChunks result st.1 st.2 maxMessageLength
    else some result
  else some result

/-- The main loop of `ProcessMarkdown` over the extractable segments: emit the
text between the cursor and the segment, then the segment itself, then advance
the cursor past the segment.  Returns the cursor positions together with the
accumulated contents. -/
def processSegments (getFilename : String → String → String)
    (mermaidRender : String → Option (List Nat × String))
    (fullText : List Nat) (fullEntities : List MessageEntity)
    (maxMessageLength : Int) :
    List Segment → Nat → Nat → List Content → Option (List Content × Nat × Nat)
  | [], cursorPy, cursorUTF16, result => some (result, cursorPy, cursorUTF16)
  | seg :: rest, cursorPy, cursorUTF16, result =>
    match preSegmentText fullText fullEntities maxMessageLength result
        cursorPy cursorUTF16 seg with
    | none => none
    | some result2 =>
      processSegments getFilename mermaidRender fullText fullEntities maxMessageLength
        rest seg.textEnd seg.utf16End (emitSegment getFilename mermaidRender result2 seg)

/-- `ProcessMarkdown` from pipeline.go, downstream of the conversion step: the
inputs are the converted `(fullText, fullEntities, segments)` triple (the
goldmark-based conversion itself is the parser collaborator).  The filename
inference, the mermaid renderer and `strings.TrimSpace` are external
collaborators passed as parameters; a `none` result models a panic in
converter.go's `stripNewlinesAdjust`. -/
def ProcessMarkdownModel (getFilename : String → String → String)
    (mermaidRender : String → Option (List Nat × String))
    (trimSpace : List Nat → List Nat)
    (fullText : List Nat) (fullEntities : List MessageEntity)
    (segments : List Segment) (maxMessageLength0 : Int) :
    Option (List Content) :=
  let maxMessageLength := if maxMessageLength0 ≤ 0 then 4096 else maxMessageLength0
  match processSegments getFilename mermaidRender fullText fullEntities
      maxMessageLength (extractableSegments segments) 0 0 [] with
  | none => none
  | some (result, cursorPy, cursorUTF16) =>
    let afterTail : Option (List Content) :=
      if cursorPy < fullText.length then
        let sl := sliceTextEntities fullText fullEntities cursorPy fullText.length
          (cursorUTF16 : Int) (UTF16Len fullText : Int)
        match stripNewlinesAdjust sl.1 sl.2 with
        | none => none
        | some (t2, e2) =>
          if t2 ≠ [] then appendTextChunks result t2 e2 maxMessageLength
          else some result
      else some result
    match afterTail with
    | none => none
    | some result2 =>
      if result2.length = 0 ∧ trimSpace fullText ≠ [] then
        appendTextChunks result2 (trimSpace fullText) fullEntities maxMessageLength
      else some result2

/-! ### Properties of the splitter -/

theorem hardSplitScan_some_ge (table : List Nat) (budget : Int) (textLen : Nat) :
    ∀ (fuel i j : Nat), hardSplitScan table budget textLen fuel i = some j →
      i - 1 ≤ j := by
  intro fuel
  induction fuel with
  | zero => intro i j h; simp [hardSplitScan] at h
  | succ fuel ih =>
    intro i j h
    simp only [hardSplitScan] at h
    by_cases hle : i ≤ textLen
    · rw [if_pos hle] at h
      by_cases hc : i < table.length ∧ (budget < (table.getD i 0 : Int))
      · rw [if_pos hc] at h
        simp only [Option.some.injEq] at h
        omega
      · rw [if_neg hc] at h
        have := ih (i + 1) j h
        omega
    · rw [if_neg hle] at h
      simp at h

theorem hardSplit_gt (table : List Nat) (budget : Int) (textLen byteStart : Nat) :
    byteStart < hardSplit table budget textLen byteStart := by
  unfold hardSplit
  cases hscan : hardSplitScan table budget textLen (textLen + 1) (byteStart + 1) with
  | none => simp
  | some j =>
    have hj : byteStart ≤ j := by
      have := hardSplitScan_some_ge table budget textLen (textLen + 1) (byteStart + 1) j hscan
      omega
    simp only [Option.getD_some]
    split
    · omega
    · omega

theorem newlineBestSplit_cases (table : List Nat) (byteStart : Nat) (budget : Int) :
    ∀ (sps : List Nat) (acc : Int), (acc = -1 ∨ (byteStart : Int) < acc) →
      (newlineBestSplit table byteStart budget sps acc = -1 ∨
        (byteStart : Int) < newlineBestSplit table byteStart budget sps acc) := by
  intro sps
  induction sps with
  | nil => intro acc hacc; simpa [newlineBestSplit] using hacc
  | cons sp rest ih =>
    intro acc hacc
    simp only [newlineBestSplit]
    by_cases h1 : sp ≤ byteStart
    · rw [if_pos h1]; exact ih acc hacc
    · rw [if_neg h1]
      by_cases h2 : sp < table.length ∧ ((table.getD sp 0 : Int) ≤ budget)
      · rw [if_pos h2]
        refine ih (sp : Int) (Or.inr ?_)
        exact_mod_cast Nat.lt_of_not_le h1
      · rw [if_neg h2]; exact hacc

theorem chooseSplit_gt (table : List Nat) (splitPoints : List Nat) (textLen byteStart : Nat)
    (budget : Int) : byteStart < chooseSplit table splitPoints textLen byteStart budget := by
  have hcases := newlineBestSplit_cases table byteStart budget splitPoints (-1) (Or.inl rfl)
  by_cases hif : newlineBestSplit table byteStart budget splitPoints (-1) = -1 ∨
      newlineBestSplit table byteStart budget splitPoints (-1) = (byteStart : Int)
  · simpa [chooseSplit, hif] using hardSplit_gt table budget textLen byteStart
  · have hlt : (byteStart : Int) < newlineBestSplit table byteStart budget splitPoints (-1) := by
      rcases hcases with hm | hlt
      · exact absurd (Or.inl hm) hif
      · exact hlt
    simp only [chooseSplit, if_neg hif]
    omega

theorem splitRangesAux_join (text : List Nat) (table : List Nat)
    (splitPoints : List Nat) (maxUTF16Len : Int) :
    ∀ (fuel byteStart : Nat), text.length - byteStart ≤ fuel →
      ((splitRangesAux table splitPoints text.length maxUTF16Len fuel byteStart).map
        (fun cr => (text.drop cr.1).take (cr.2 - cr.1))).flatten = text.drop byteStart := by
  intro fuel
  induction fuel with
  | zero =>
    intro byteStart h
    have hlen : text.length ≤ byteStart := by omega
    simp [splitRangesAux, List.drop_eq_nil_of_le hlen]
  | succ fuel ih =>
    intro byteStart h
    simp only [splitRangesAux]
    by_cases hlt : byteStart < text.length
    · rw [if_pos hlt]
      by_cases hfit : (table.getD text.length 0 : Int) ≤ (table.getD byteStart 0 : Int) + maxUTF16Len
      · rw [if_pos hfit]
        have hdl : (text.drop byteStart).length ≤ text.length - byteStart := by
          simp
        simp [List.take_of_length_le hdl]
      · rw [if_neg hfit]
        have hb := chooseSplit_gt table splitPoints text.length byteStart
          ((table.getD byteStart 0 : Int) + maxUTF16Len)
        set b := chooseSplit table splitPoints text.length byteStart
          ((table.getD byteStart 0 : Int) + maxUTF16Len) with hbdef
        have hrec := ih b (by omega)
        simp only [List.map_cons, List.flatten_cons, hrec]
        have hdrop : text.drop b = (text.drop byteStart).drop (b - byteStart) := by
          rw [List.drop_drop]
          congr 1
          omega
        rw [hdrop, List.take_append_drop]
    · rw [if_neg hlt]
      simp [List.drop_eq_nil_of_le (by omega : text.length ≤ byteStart)]

/-- The round-trip half of claim C1, for an arbitrary offset table: whenever
`SplitEntities` returns chunks, their `text` fields concatenate to the input.
(The totality half, for well-formed texts, is proved as
`SplitEntities_roundtrip` after the encoding lemmas.) -/
theorem SplitEntities_some_roundtrip (text : List Nat) (entities : List MessageEntity)
    (maxUTF16Len : Int) (chunks : List TextChunk)
    (h : SplitEntities text entities maxUTF16Len = some chunks) :
    (chunks.map TextChunk.text).flatten = text := by
  simp only [SplitEntities] at h
  split at h
  · simp only [Option.some.injEq] at h
    subst h
    simp
  · cases ht : buildUTF16OffsetTable text with
    | none => rw [ht] at h; exact absurd h (by simp)
    | some offsets =>
      rw [ht] at h
      simp only [Option.some.injEq] at h
      subst h
      simp only [List.map_map]
      have := splitRangesAux_join text offsets
        (findNewlinePositions text) maxUTF16Len text.length 0 (by omega)
      simpa using this

/-- Claim C2, violated by the code: splitting the two-emoji text U+1F600
U+1F600 (bytes below, valid UTF-8) at a maximum of 3 UTF-16 units forces a
hard split in the middle of the second emoji's UTF-8 encoding; the second
chunk is a single continuation byte whose UTF-16 length is 1, yet it carries a
clipped entity with offset 2 and length 2. -/
theorem SplitEntities_entity_invariant_violation :
    (SplitEntities [240, 159, 152, 128, 240, 159, 152, 128]
      [{ etype := "bold", offset := 2, length := 2, url := "", language := "",
         customEmojiID := "" }] 3).isSome = true ∧
    ∃ c ∈ (SplitEntities [240, 159, 152, 128, 240, 159, 152, 128]
      [{ etype := "bold", offset := 2, length := 2, url := "", language := "",
         customEmojiID := "" }] 3).getD [],
      ∃ e ∈ c.entities,
        ¬(0 ≤ e.offset ∧ e.offset + e.length ≤ (UTF16Len c.text : Int)) := by
  decide

/-- Claim C3, violated by converter.go's `stripNewlinesAdjust`: on a text made
only of newlines the leading and trailing counts overlap, the Go slice
`text[leading:end]` has `leading > end`, and the function panics (modelled as
`none`); pipeline.go's `stripNewlinesAdjustInternal` carries the bounds check
and returns the empty text with no entities as the claim states. -/
theorem stripNewlinesAdjust_newline_only_panics :
    stripNewlinesAdjust [10] [] = none ∧
      stripNewlinesAdjust [10, 10] [] = none ∧
      stripNewlinesAdjustInternal [10] [] = ([], []) ∧
      stripNewlinesAdjustInternal [10, 10] [] = ([], []) := by
  decide

/-! ### Idempotence of the newline trim (claim C7) -/

theorem goDecodeListAux_congr :
    ∀ (f1 f2 : Nat) (bs : List Nat), bs.length ≤ f1 → bs.length ≤ f2 →
      goDecodeListAux f1 bs = goDecodeListAux f2 bs := by
  intro f1
  induction f1 with
  | zero =>
    intro f2 bs h1 _
    have : bs = [] := List.length_eq_zero.mp (by omega)
    subst this
    cases f2 <;> rfl
  | succ f1 ih =>
    intro f2 bs h1 h2
    cases bs with
    | nil => cases f2 <;> rfl
    | cons b rest =>
      cases f2 with
      | zero => simp at h2
      | succ f2 =>
        simp only [goDecodeListAux]
        congr 1
        have hd : (rest.drop (goDecodeRune b rest).2).length ≤ rest.length := by
          simp
        apply ih
        · simp only [List.length_cons] at h1; omega
        · simp only [List.length_cons] at h2; omega

theorem goDecodeList_cons (b : Nat) (rest : List Nat) :
    goDecodeList (b :: rest) =
      ((goDecodeRune b rest).1, (goDecodeRune b rest).2 + 1) ::
        goDecodeList (rest.drop (goDecodeRune b rest).2) := by
  show goDecodeListAux (b :: rest).length (b :: rest) = _
  simp only [List.length_cons, goDecodeListAux]
  congr 1
  apply goDecodeListAux_congr
  · simp
  · exact Nat.le_refl _

/-- A rune decoded from a lead byte other than 0x0A is never the newline
rune: multi-byte sequences decode to values at least 0x80 and invalid bytes
decode to U+FFFD. -/
theorem goDecodeRune_fst_ne_ten (b : Nat) (rest : List Nat) (hb : b ≠ 10) :
    (goDecodeRune b rest).1 ≠ 10 := by
  unfold goDecodeRune
  by_cases h1 : b < 0x80
  · rw [if_pos h1]; simpa using hb
  · rw [if_neg h1]
    by_cases h2 : b < 0xC2
    · rw [if_pos h2]; simp
    · rw [if_neg h2]
      by_cases h3 : b < 0xE0
      · rw [if_pos h3]
        cases rest with
        | nil => simp
        | cons b1 tl =>
          dsimp only
          by_cases h4 : contByte b1 = true
          · rw [if_pos h4]
            have hb1 : 0x80 ≤ b1 ∧ b1 ≤ 0xBF := by
              simpa [contByte, Bool.and_eq_true, decide_eq_true_eq] using h4
            intro hc
            simp only at hc
            omega
          · rw [if_neg h4]; simp
      · rw [if_neg h3]
        by_cases h5 : b < 0xF0
        · rw [if_pos h5]
          match rest with
          | [] => simp
          | [b1] => simp
          | b1 :: b2 :: tl =>
            dsimp only
            by_cases h6 : (utf8Accept3 b b1 && contByte b2) = true
            · rw [if_pos h6]
              simp only [Bool.and_eq_true] at h6
              obtain ⟨ha, hcb⟩ := h6
              have hb2 : 0x80 ≤ b2 ∧ b2 ≤ 0xBF := by
                simpa [contByte, Bool.and_eq_true, decide_eq_true_eq] using hcb
              have hb1 : (b = 0xE0 ∧ 0xA0 ≤ b1 ∧ b1 ≤ 0xBF) ∨
                  (b = 0xED ∧ 0x80 ≤ b1 ∧ b1 ≤ 0x9F) ∨
                  (b ≠ 0xE0 ∧ b ≠ 0xED ∧ 0x80 ≤ b1 ∧ b1 ≤ 0xBF) := by
                unfold utf8Accept3 at ha
                by_cases he0 : b = 0xE0
                · rw [if_pos he0] at ha
                  exact Or.inl ⟨he0, by
                    simpa [Bool.and_eq_true, decide_eq_true_eq] using ha⟩
                · rw [if_neg he0] at ha
                  by_cases hed : b = 0xED
                  · rw [if_pos hed] at ha
                    exact Or.inr (Or.inl ⟨hed, by
                      simpa [Bool.and_eq_true, decide_eq_true_eq] using ha⟩)
                  · rw [if_neg hed] at ha
                    exact Or.inr (Or.inr ⟨he0, hed, by
                      simpa [contByte, Bool.and_eq_true, decide_eq_true_eq] using ha⟩)
              intro hc
              simp only at hc
              rcases hb1 with ⟨hq, hr⟩ | ⟨hq, hr⟩ | ⟨hq, hr, hs⟩ <;> omega
            · rw [if_neg h6]; simp
        · rw [if_neg h5]
          by_cases h7 : b < 0xF5
          · rw [if_pos h7]
            match rest with
            | [] => simp
            | [b1] => simp
            | [b1, b2] => simp
            | b1 :: b2 :: b3 :: tl =>
              dsimp only
              by_cases h8 : (utf8Accept4 b b1 && contByte b2 && contByte b3) = true
              · rw [if_pos h8]
                simp only [Bool.and_eq_true] at h8
                obtain ⟨⟨ha, hcb2⟩, hcb3⟩ := h8
                have hb2 : 0x80 ≤ b2 ∧ b2 ≤ 0xBF := by
                  simpa [contByte, Bool.and_eq_true, decide_eq_true_eq] using hcb2
                have hb3 : 0x80 ≤ b3 ∧ b3 ≤ 0xBF := by
                  simpa [contByte, Bool.and_eq_true, decide_eq_true_eq] using hcb3
                have hb1 : (b = 0xF0 ∧ 0x90 ≤ b1 ∧ b1 ≤ 0xBF) ∨
                    (b = 0xF4 ∧ 0x80 ≤ b1 ∧ b1 ≤ 0x8F) ∨
                    (b ≠ 0xF0 ∧ b ≠ 0xF4 ∧ 0x80 ≤ b1 ∧ b1 ≤ 0xBF) := by
                  unfold utf8Accept4 at ha
                  by_cases hf0 : b = 0xF0
                  · rw [if_pos hf0] at ha
                    exact Or.inl ⟨hf0, by
                      simpa [Bool.and_eq_true, decide_eq_true_eq] using ha⟩
                  · rw [if_neg hf0] at ha
                    by_cases hf4 : b = 0xF4
                    · rw [if_pos hf4] at ha
                      exact Or.inr (Or.inl ⟨hf4, by
                        simpa [Bool.and_eq_true, decide_eq_true_eq] using ha⟩)
                    · rw [if_neg hf4] at ha
                      exact Or.inr (Or.inr ⟨hf0, hf4, by
                        simpa [contByte, Bool.and_eq_true, decide_eq_true_eq] using ha⟩)
                intro hc
                simp only at hc
                rcases hb1 with ⟨hq, hr⟩ | ⟨hq, hr⟩ | ⟨hq, hr, hs⟩ <;> omega
              · rw [if_neg h8]; simp
          · rw [if_neg h7]; simp

/-- A newline rune is only ever decoded from the single byte 0x0A, consuming
no extra bytes. -/
theorem goDecodeRune_eq_ten (b : Nat) (rest : List Nat)
    (h : (goDecodeRune b rest).1 = 10) : b = 10 ∧ (goDecodeRune b rest).2 = 0 := by
  have hb : b = 10 := by
    by_contra hb
    exact goDecodeRune_fst_ne_ten b rest hb h
  subst hb
  exact ⟨rfl, by simp [goDecodeRune]⟩

theorem goDecodeRunes_getLast_ne_ten :
    ∀ (n : Nat) (bs : List Nat), bs.length ≤ n → bs.getLast? ≠ some 10 →
      (goDecodeRunes bs).getLast? ≠ some 10 := by
  intro n
  induction n with
  | zero =>
    intro bs h _
    have : bs = [] := List.length_eq_zero.mp (by omega)
    subst this
    simp [goDecodeRunes, goDecodeList, goDecodeListAux]
  | succ n ih =>
    intro bs hlen hlast
    cases bs with
    | nil => simp [goDecodeRunes, goDecodeList, goDecodeListAux]
    | cons b rest =>
      rw [goDecodeRunes, goDecodeList_cons]
      cases hdk : rest.drop (goDecodeRune b rest).2 with
      | nil =>
        simp only [List.map_cons, hdk]
        simp only [goDecodeList, goDecodeListAux, List.map_nil, List.getLast?_singleton]
        intro hc
        simp only [Option.some.injEq] at hc
        rcases goDecodeRune_eq_ten b rest hc with ⟨hb, hk⟩
        rw [hk, List.drop_zero] at hdk
        subst hb hdk
        simp at hlast
      | cons x xs =>
        simp only [List.map_cons]
        have htail2 : List.map Prod.fst (goDecodeList (x :: xs)) ≠ [] := by
          rw [goDecodeList_cons]; simp
        have hrw := List.getLast?_append_of_ne_nil [(goDecodeRune b rest).1] htail2
        simp only [List.singleton_append] at hrw
        rw [hrw]
        have hlen2 : (x :: xs).length ≤ n := by
          have h3 : (rest.drop (goDecodeRune b rest).2).length ≤ rest.length := by simp
          rw [hdk] at h3
          simp only [List.length_cons] at hlen h3 ⊢
          omega
        have hlast2 : (x :: xs).getLast? ≠ some 10 := by
          have hrest : rest ≠ [] := by
            intro hr
            rw [hr] at hdk
            simp at hdk
          have hg1 : (b :: rest).getLast? = rest.getLast? := by
            have := List.getLast?_append_of_ne_nil [b] hrest
            simpa using this
          have hg2 : rest.getLast? = (x :: xs).getLast? := by
            conv_lhs => rw [← List.take_append_drop (goDecodeRune b rest).2 rest, hdk]
            exact List.getLast?_append_of_ne_nil _ (by simp)
          rw [hg1, hg2] at hlast
          exact hlast
        exact ih (x :: xs) hlen2 hlast2

theorem countLeadingNewlines_eq_zero (text : List Nat) (h : text.head? ≠ some 10) :
    countLeadingNewlines text = 0 := by
  cases text with
  | nil => rfl
  | cons b rest =>
    have hb : b ≠ 10 := by
      intro hb
      exact h (by rw [hb]; rfl)
    rw [countLeadingNewlines, goDecodeRunes, goDecodeList_cons]
    simp only [List.map_cons, List.takeWhile_cons]
    rw [decide_eq_false (goDecodeRune_fst_ne_ten b rest hb)]
    rfl

theorem countTrailingNewlines_eq_zero (text : List Nat) (h : text.getLast? ≠ some 10) :
    countTrailingNewlines text = 0 := by
  have hlast := goDecodeRunes_getLast_ne_ten text.length text (Nat.le_refl _) h
  rw [countTrailingNewlines]
  cases hr : (goDecodeRunes text).reverse with
  | nil => rfl
  | cons r rs =>
    have hhead : (goDecodeRunes text).reverse.head? = some r := by rw [hr]; rfl
    rw [List.head?_reverse] at hhead
    have hrne : r ≠ 10 := by
      intro hc
      rw [hc] at hhead
      exact hlast hhead
    simp only [List.takeWhile_cons]
    rw [decide_eq_false hrne]
    rfl

/-- Claim C7: for every (text, entities) pair whose text has no leading and no
trailing newline character, `stripNewlinesAdjust` returns the pair
unchanged. -/
theorem stripNewlinesAdjust_idempotent (text : List Nat)
    (entities : List MessageEntity) (h1 : text.head? ≠ some 10)
    (h2 : text.getLast? ≠ some 10) :
    stripNewlinesAdjust text entities = some (text, entities) := by
  rw [stripNewlinesAdjust]
  rw [countLeadingNewlines_eq_zero text h1, countTrailingNewlines_eq_zero text h2]
  simp

/-- Witness for claim C7 at the concrete pair `("a\nb", [bold 0 3])`. -/
theorem stripNewlinesAdjust_idempotent_witness :
    stripNewlinesAdjust [97, 10, 98]
      [{ etype := "bold", offset := 0, length := 3, url := "", language := "",
         customEmojiID := "" }] =
      some ([97, 10, 98],
        [{ etype := "bold", offset := 0, length := 3, url := "", language := "",
           customEmojiID := "" }]) :=
  stripNewlinesAdjust_idempotent [97, 10, 98] _ (by decide) (by decide)

/-! ### UTF-16 counting over encoded scalar sequences (claim C5) -/

/-- The UTF-8 encoding of one Unicode scalar value, as Go stores it in a
string built from valid runes. -/
def utf8EncodeChar (c : Nat) : List Nat :=
  if c < 0x80 then [c]
  else if c < 0x800 then [0xC0 + c / 0x40, 0x80 + c % 0x40]
  else if c < 0x10000 then
    [0xE0 + c / 0x1000, 0x80 + (c / 0x40) % 0x40, 0x80 + c % 0x40]
  else
    [0xF0 + c / 0x40000, 0x80 + (c / 0x1000) % 0x40, 0x80 + (c / 0x40) % 0x40,
      0x80 + c % 0x40]

/-- The UTF-8 encoding of a sequence of Unicode scalar values. -/
def utf8Encode (cs : List Nat) : List Nat :=
  (cs.map utf8EncodeChar).flatten

/-- A Unicode scalar value: in range and not a surrogate. -/
abbrev ValidScalar (c : Nat) : Prop :=
  c < 0x110000 ∧ (c < 0xD800 ∨ 0xDFFF < c)

/-- Decoding the encoding of one valid scalar consumes exactly its bytes and
returns the scalar. -/
theorem goDecodeList_encodeChar (c : Nat) (h : ValidScalar c) (bs : List Nat) :
    goDecodeList (utf8EncodeChar c ++ bs) =
      (c, (utf8EncodeChar c).length) :: goDecodeList bs := by
  obtain ⟨hmax, hsur⟩ := h
  by_cases h1 : c < 0x80
  · simp only [utf8EncodeChar, if_pos h1, List.singleton_append, List.length_singleton]
    rw [goDecodeList_cons]
    have hr : goDecodeRune c bs = (c, 0) := by
      unfold goDecodeRune
      rw [if_pos h1]
    simp [hr]
  · by_cases h2 : c < 0x800
    · simp only [utf8EncodeChar, if_neg h1, if_pos h2, List.cons_append,
        List.nil_append, List.length_cons, List.length_nil]
      rw [goDecodeList_cons]
      have hr : goDecodeRune (0xC0 + c / 0x40) ((0x80 + c % 0x40) :: bs) = (c, 1) := by
        unfold goDecodeRune
        rw [if_neg (by omega), if_neg (by omega), if_pos (by omega)]
        dsimp only
        have hcb : contByte (0x80 + c % 0x40) = true := by
          simp only [contByte, Bool.and_eq_true, decide_eq_true_eq]
          omega
        rw [if_pos hcb]
        have : (0xC0 + c / 0x40) % 0x20 * 0x40 + (0x80 + c % 0x40) % 0x40 = c := by
          omega
        rw [this]
      simp [hr]
    · by_cases h3 : c < 0x10000
      · simp only [utf8EncodeChar, if_neg h1, if_neg h2, if_pos h3, List.cons_append,
          List.nil_append, List.length_cons, List.length_nil]
        rw [goDecodeList_cons]
        have hr : goDecodeRune (0xE0 + c / 0x1000)
            ((0x80 + (c / 0x40) % 0x40) :: (0x80 + c % 0x40) :: bs) = (c, 2) := by
          unfold goDecodeRune
          rw [if_neg (by omega), if_neg (by omega), if_neg (by omega), if_pos (by omega)]
          dsimp only
          have hacc : (utf8Accept3 (0xE0 + c / 0x1000) (0x80 + (c / 0x40) % 0x40) &&
              contByte (0x80 + c % 0x40)) = true := by
            simp only [utf8Accept3, contByte, Bool.and_eq_true, decide_eq_true_eq]
            constructor
            · split_ifs with hE0 hED <;>
                simp only [Bool.and_eq_true, decide_eq_true_eq] <;> omega
            · omega
          rw [if_pos hacc]
          have : (0xE0 + c / 0x1000) % 0x10 * 0x1000 +
              (0x80 + (c / 0x40) % 0x40) % 0x40 * 0x40 + (0x80 + c % 0x40) % 0x40 = c := by
            omega
          rw [this]
        simp [hr]
      · simp only [utf8EncodeChar, if_neg h1, if_neg h2, if_neg h3, List.cons_append,
          List.nil_append, List.length_cons, List.length_nil]
        rw [goDecodeList_cons]
        have hr : goDecodeRune (0xF0 + c / 0x40000)
            ((0x80 + (c / 0x1000) % 0x40) :: (0x80 + (c / 0x40) % 0x40) ::
              (0x80 + c % 0x40) :: bs) = (c, 3) := by
          unfold goDecodeRune
          rw [if_neg (by omega), if_neg (by omega), if_neg (by omega), if_neg (by omega),
            if_pos (by omega)]
          dsimp only
          have hacc : (utf8Accept4 (0xF0 + c / 0x40000) (0x80 + (c / 0x1000) % 0x40) &&
              contByte (0x80 + (c / 0x40) % 0x40) && contByte (0x80 + c % 0x40)) = true := by
            simp only [utf8Accept4, contByte, Bool.and_eq_true, decide_eq_true_eq]
            refine ⟨⟨?_, by omega⟩, by omega⟩
            split_ifs with hF0 hF4 <;>
              simp only [Bool.and_eq_true, decide_eq_true_eq] <;> omega
          rw [if_pos hacc]
          have : (0xF0 + c / 0x40000) % 0x8 * 0x40000 +
              (0x80 + (c / 0x1000) % 0x40) % 0x40 * 0x1000 +
              (0x80 + (c / 0x40) % 0x40) % 0x40 * 0x40 + (0x80 + c % 0x40) % 0x40 = c := by
            omega
          rw [this]
        simp [hr]

/-- Claim C5: `UTF16Len` counts 2 for each scalar value above 0xFFFF and 1 for
each other scalar value of the encoded input string. -/
theorem UTF16Len_utf8Encode (cs : List Nat) (h : ∀ c ∈ cs, ValidScalar c) :
    UTF16Len (utf8Encode cs) =
      (cs.map (fun c => if 0xFFFF < c then 2 else 1)).sum := by
  induction cs with
  | nil => rfl
  | cons c cs ih =>
    have hc := h c (List.mem_cons_self c cs)
    have hcs : ∀ x ∈ cs, ValidScalar x := fun x hx => h x (List.mem_cons_of_mem c hx)
    simp only [utf8Encode, List.map_cons, List.flatten_cons]
    rw [UTF16Len, goDecodeList_encodeChar c hc ((cs.map utf8EncodeChar).flatten)]
    simp only [List.map_cons, List.sum_cons]
    have htail : ((goDecodeList ((cs.map utf8EncodeChar).flatten)).map
        (fun rk => utf16Weight rk.1)).sum = UTF16Len (utf8Encode cs) := rfl
    rw [htail, ih hcs, utf16Weight]

/-- Witness for claim C5: a two-character flag sequence of two
supplementary-plane scalars counts as 4; one supplementary scalar counts as 2;
one BMP scalar counts as 1. -/
theorem UTF16Len_utf8Encode_witness :
    UTF16Len (utf8Encode [0x1F1E6, 0x1F1EA]) =
        (([0x1F1E6, 0x1F1EA] : List Nat).map (fun c => if 0xFFFF < c then 2 else 1)).sum ∧
      UTF16Len (utf8Encode [0x1F1E6, 0x1F1EA]) = 4 ∧
      UTF16Len (utf8Encode [0x1F600]) = 2 ∧
      UTF16Len (utf8Encode [0x4E2D]) = 1 :=
  ⟨UTF16Len_utf8Encode [0x1F1E6, 0x1F1EA] (by decide), by decide, by decide, by decide⟩

/-! ### Splitter round-trip (claim C1) -/

theorem goRuneLen_pos (r : Nat) : 1 ≤ goRuneLen r := by
  unfold goRuneLen
  split_ifs <;> omega

/-- On a valid scalar, the re-encoded length `len(string(r))` equals the
length of its UTF-8 encoding (no U+FFFD replacement happens). -/
theorem goRuneLen_encodeChar (c : Nat) (h : ValidScalar c) :
    goRuneLen c = (utf8EncodeChar c).length := by
  obtain ⟨hmax, hsur⟩ := h
  simp only [goRuneLen, utf8EncodeChar]
  split_ifs with h1 h2 h3 h4
  · rfl
  · rfl
  · rfl
  · rfl
  · omega

/-- Decoding the encoding of a sequence of valid scalars recovers the scalars
together with their encoded widths. -/
theorem goDecodeList_encode (cs : List Nat) (h : ∀ c ∈ cs, ValidScalar c) :
    goDecodeList (utf8Encode cs) =
      cs.map (fun c => (c, (utf8EncodeChar c).length)) := by
  induction cs with
  | nil => rfl
  | cons c cs ih =>
    simp only [utf8Encode, List.map_cons, List.flatten_cons] at ih ⊢
    rw [goDecodeList_encodeChar c (h c (List.mem_cons_self c cs)),
      ih (fun x hx => h x (List.mem_cons_of_mem c hx))]

/-- On the decode of a valid encoding, the re-encoded widths sum to the
encoded byte length: the table-building index never drifts. -/
theorem sum_goRuneLen_encode (cs : List Nat) (h : ∀ c ∈ cs, ValidScalar c) :
    ((cs.map (fun c => ((c : Nat), (utf8EncodeChar c).length))).map
      (fun rk => goRuneLen rk.1)).sum = (utf8Encode cs).length := by
  induction cs with
  | nil => rfl
  | cons c cs ih =>
    simp only [utf8Encode, List.map_cons, List.sum_cons, List.flatten_cons,
      List.length_append] at ih ⊢
    rw [goRuneLen_encodeChar c (h c (List.mem_cons_self c cs)),
      ih (fun x hx => h x (List.mem_cons_of_mem c hx))]

/-- The assignment loop cannot panic when the re-encoded widths fit inside the
table: every write lands in range. -/
theorem buildTableGo_isSome :
    ∀ (rks : List (Nat × Nat)) (offsets : List Nat) (cum bytePos : Nat),
      bytePos + (rks.map (fun rk => goRuneLen rk.1)).sum ≤ offsets.length →
      (buildTableGo rks offsets cum bytePos).isSome = true := by
  intro rks
  induction rks with
  | nil => intro offsets cum bytePos _; rfl
  | cons rk rest ih =>
    intro offsets cum bytePos hle
    simp only [List.map_cons, List.sum_cons] at hle
    have h1 := goRuneLen_pos rk.1
    rw [buildTableGo, if_pos (by omega)]
    exact ih _ (cum + utf16Weight rk.1) (bytePos + goRuneLen rk.1)
      (by rw [List.length_set]; omega)

/-- On well-formed input (the UTF-8 encoding of valid scalars) the offset
table is built without panicking. -/
theorem buildUTF16OffsetTable_encode (cs : List Nat) (h : ∀ c ∈ cs, ValidScalar c) :
    (buildUTF16OffsetTable (utf8Encode cs)).isSome = true := by
  rw [buildUTF16OffsetTable, goDecodeList_encode cs h]
  apply buildTableGo_isSome
  rw [List.length_replicate, sum_goRuneLen_encode cs h]
  omega

/-- Claim C1: concatenating the chunk texts of `SplitEntities`, in order,
reproduces the input exactly.  Proved in two halves: whenever chunks are
returned (the byte-based split is contiguous and covering, for every text,
entity list and maximum), and moreover on every well-formed text (the UTF-8
encoding of valid scalars) chunks are always returned — the table build cannot
panic there — and the round-trip holds. -/
theorem SplitEntities_roundtrip (text : List Nat) (entities : List MessageEntity)
    (maxUTF16Len : Int) :
    (∀ chunks, SplitEntities text entities maxUTF16Len = some chunks →
      (chunks.map TextChunk.text).flatten = text) ∧
    (∀ cs : List Nat, (∀ c ∈ cs, ValidScalar c) → text = utf8Encode cs →
      ∃ chunks, SplitEntities text entities maxUTF16Len = some chunks ∧
        (chunks.map TextChunk.text).flatten = text) := by
  constructor
  · exact fun chunks h => SplitEntities_some_roundtrip text entities maxUTF16Len chunks h
  · intro cs hcs htext
    subst htext
    have htot : (SplitEntities (utf8Encode cs) entities maxUTF16Len).isSome = true := by
      simp only [SplitEntities]
      split
      · rfl
      · obtain ⟨tbl, htbl⟩ := Option.isSome_iff_exists.mp
          (buildUTF16OffsetTable_encode cs hcs)
        rw [htbl]
        rfl
    obtain ⟨chunks, hch⟩ := Option.isSome_iff_exists.mp htot
    exact ⟨chunks, hch,
      SplitEntities_some_roundtrip (utf8Encode cs) entities maxUTF16Len chunks hch⟩

/-- The concrete chunks `SplitEntities` returns for the witness text
`"a\nb"` at maximum 1. -/
def c1WitnessChunks : List TextChunk :=
  [{ text := [97], entities := [] }, { text := [10], entities := [] },
   { text := [98], entities := [] }]

/-- Witness for claim C1: the well-formed text `"a\nb"` at maximum 1 splits
into three chunks whose texts concatenate back to the input, and the splitter
returns (does not panic) on it. -/
theorem SplitEntities_roundtrip_witness :
    (c1WitnessChunks.map TextChunk.text).flatten = utf8Encode [97, 10, 98] ∧
      (SplitEntities (utf8Encode [97, 10, 98]) [] 1).isSome = true :=
  ⟨(SplitEntities_roundtrip (utf8Encode [97, 10, 98]) [] 1).1 c1WitnessChunks (by decide),
   by
    obtain ⟨ch, hch, -⟩ := (SplitEntities_roundtrip (utf8Encode [97, 10, 98]) [] 1).2
      [97, 10, 98] (by decide) rfl
    rw [hch]
    rfl⟩

/-! ### Scope stack behaviour (claim C9) -/

theorem popScope_eq_none (stack : List EntityScope) (t : String)
    (h : ∀ s ∈ stack, s.entityType ≠ t) : popScope stack t = none := by
  induction stack with
  | nil => rfl
  | cons s rest ih =>
    rw [popScope, if_neg (h s (List.mem_cons_self s rest))]
    rw [ih (fun x hx => h x (List.mem_cons_of_mem s hx))]

/-- Claim C9: closing a formatting scope whose type has no currently-open
scope on the entity stack is a silent no-op: `popEntity` returns the walker
state unchanged (no entity emitted, nothing removed, no failure). -/
theorem popEntity_no_open_scope (w : WalkerState) (entityType : String)
    (h : ∀ s ∈ w.entityStack, s.entityType ≠ entityType) :
    popEntity w entityType = w := by
  rw [popEntity, popScope_eq_none w.entityStack entityType h]

/-- Witness for claim C9: a stray closing spoiler with only a bold scope open
leaves the walker unchanged. -/
theorem popEntity_no_open_scope_witness :
    popEntity (pushEntity initialWalker "bold" "") "spoiler" =
      pushEntity initialWalker "bold" "" :=
  popEntity_no_open_scope (pushEntity initialWalker "bold" "") "spoiler" (by decide)

/-! ### Frame effect of entity clipping (claim C10) -/

/-- Claim C10: when the splitter or the text-slicing step copies an entity into
a chunk, only its offset and length change: the clipped copy keeps the
original's type, url, language and custom-emoji id. -/
theorem clipped_entity_fields_preserved (text : List Nat)
    (entities : List MessageEntity) (maxUTF16Len : Int) (fullText : List Nat)
    (fullEntities : List MessageEntity) (pyStart pyEnd : Nat)
    (utf16Start utf16End : Int) :
    (∀ chunks, SplitEntities text entities maxUTF16Len = some chunks →
      ∀ c ∈ chunks, ∀ e ∈ c.entities,
      ∃ orig ∈ entities, e.etype = orig.etype ∧ e.url = orig.url ∧
        e.language = orig.language ∧ e.customEmojiID = orig.customEmojiID) ∧
    (∀ e ∈ (sliceTextEntities fullText fullEntities pyStart pyEnd utf16Start utf16End).2,
      ∃ orig ∈ fullEntities, e.etype = orig.etype ∧ e.url = orig.url ∧
        e.language = orig.language ∧ e.customEmojiID = orig.customEmojiID) := by
  constructor
  · intro chunks hch c hc e he
    simp only [SplitEntities] at hch
    split at hch
    · simp only [Option.some.injEq] at hch
      subst hch
      simp only [List.mem_singleton] at hc
      subst hc
      exact ⟨e, he, rfl, rfl, rfl, rfl⟩
    · cases ht : buildUTF16OffsetTable text with
      | none => rw [ht] at hch; exact absurd hch (by simp)
      | some offsets =>
        rw [ht] at hch
        simp only [Option.some.injEq] at hch
        subst hch
        obtain ⟨cr, _, rfl⟩ := List.mem_map.mp hc
        simp only at he
        obtain ⟨a, ha, hg⟩ := List.mem_filterMap.mp he
        refine ⟨a, ha, ?_⟩
        split_ifs at hg
        all_goals try (simp only [Option.some.injEq] at hg)
        all_goals (subst hg; exact ⟨rfl, rfl, rfl, rfl⟩)
  · intro e he
    simp only [sliceTextEntities] at he
    obtain ⟨a, ha, hg⟩ := List.mem_filterMap.mp he
    refine ⟨a, ha, ?_⟩
    split_ifs at hg
    all_goals try (simp only [Option.some.injEq] at hg)
    all_goals (subst hg; exact ⟨rfl, rfl, rfl, rfl⟩)

/-- Concrete original entity for the splitter half of the C10 witness. -/
def splitOrigEntity : MessageEntity :=
  { etype := "text_link", offset := 0, length := 5, url := "u", language := "go",
    customEmojiID := "ce" }

/-- Concrete clipped entity the splitter produces for the second chunk of
`"ab\ncd"` at maximum 3. -/
def splitClippedEntity : MessageEntity :=
  { etype := "text_link", offset := 0, length := 2, url := "u", language := "go",
    customEmojiID := "ce" }

/-- Concrete clipped entity the splitter produces for the first chunk of
`"ab\ncd"` at maximum 3. -/
def splitFirstClippedEntity : MessageEntity :=
  { etype := "text_link", offset := 0, length := 3, url := "u", language := "go",
    customEmojiID := "ce" }

/-- The concrete chunk list `SplitEntities` returns for `"ab\ncd"` at
maximum 3. -/
def splitWitnessChunks : List TextChunk :=
  [{ text := [97, 98, 10], entities := [splitFirstClippedEntity] },
   { text := [99, 100], entities := [splitClippedEntity] }]

/-- Concrete original entity for the slice half of the C10 witness. -/
def sliceOrigEntity : MessageEntity :=
  { etype := "bold", offset := 1, length := 2, url := "u2", language := "l2",
    customEmojiID := "c2" }

/-- Concrete clipped entity `sliceTextEntities` produces on `[97,98,99]` for
the range `[0, 2)`. -/
def sliceClippedEntity : MessageEntity :=
  { etype := "bold", offset := 1, length := 1, url := "u2", language := "l2",
    customEmojiID := "c2" }

/-- Witness for claim C10: a clipped splitter entity and a clipped slice
entity, both with length changed, keep the original's other fields. -/
theorem clipped_entity_fields_preserved_witness :
    (∃ orig ∈ [splitOrigEntity],
      splitClippedEntity.etype = orig.etype ∧ splitClippedEntity.url = orig.url ∧
      splitClippedEntity.language = orig.language ∧
      splitClippedEntity.customEmojiID = orig.customEmojiID) ∧
    (∃ orig ∈ [sliceOrigEntity],
      sliceClippedEntity.etype = orig.etype ∧ sliceClippedEntity.url = orig.url ∧
      sliceClippedEntity.language = orig.language ∧
      sliceClippedEntity.customEmojiID = orig.customEmojiID) :=
  ⟨(clipped_entity_fields_preserved [97, 98, 10, 99, 100] [splitOrigEntity] 3
      [97, 98, 99] [sliceOrigEntity] 0 2 0 2).1
      splitWitnessChunks (by decide)
      { text := [99, 100], entities := [splitClippedEntity] } (by decide)
      splitClippedEntity (by decide),
   (clipped_entity_fields_preserved [97, 98, 10, 99, 100] [splitOrigEntity] 3
      [97, 98, 99] [sliceOrigEntity] 0 2 0 2).2
      sliceClippedEntity (by decide)⟩

/-! ### Blockquote promotion (claim C8) -/

/-- Claim C8: under the default configuration, after the document-exit pass
every blockquote entity longer than 200 UTF-16 units has been promoted to
`expandable_blockquote` (none longer than 200 remains), and every blockquote
entity of length at most 200 keeps its type. -/
theorem promoteBlockquotes_default (entities : List MessageEntity) :
    (∀ e ∈ promoteBlockquotes DefaultRenderConfig.citeExpandable entities,
      e.etype = "blockquote" → e.length ≤ 200) ∧
    (∀ e ∈ entities, e.etype = "blockquote" →
      (200 < e.length →
        { e with etype := "expandable_blockquote" } ∈
          promoteBlockquotes DefaultRenderConfig.citeExpandable entities) ∧
      (e.length ≤ 200 →
        e ∈ promoteBlockquotes DefaultRenderConfig.citeExpandable entities)) := by
  constructor
  · intro e he
    simp only [promoteBlockquotes, DefaultRenderConfig, if_pos] at he
    obtain ⟨a, _, hfa⟩ := List.mem_map.mp he
    split_ifs at hfa with hcond
    · intro hbq
      rw [← hfa] at hbq
      simp at hbq
    · intro hbq
      rw [← hfa] at hbq ⊢
      by_contra hgt
      exact hcond ⟨hbq, by omega⟩
  · intro e he hbq
    constructor
    · intro hlen
      simp only [promoteBlockquotes, DefaultRenderConfig, if_pos]
      refine List.mem_map.mpr ⟨e, he, ?_⟩
      rw [if_pos ⟨hbq, hlen⟩]
    · intro hlen
      simp only [promoteBlockquotes, DefaultRenderConfig, if_pos]
      refine List.mem_map.mpr ⟨e, he, ?_⟩
      rw [if_neg (by rintro ⟨_, h⟩; omega)]

/-- A 201-unit blockquote entity for the C8 witness. -/
def longQuoteEntity : MessageEntity :=
  { etype := "blockquote", offset := 0, length := 201, url := "", language := "",
    customEmojiID := "" }

/-- A 200-unit blockquote entity for the C8 witness. -/
def shortQuoteEntity : MessageEntity :=
  { etype := "blockquote", offset := 300, length := 200, url := "", language := "",
    customEmojiID := "" }

/-- Witness for claim C8: a 201-unit blockquote is promoted, a 200-unit one is
kept, in a concrete entity list. -/
theorem promoteBlockquotes_default_witness :
    { longQuoteEntity with etype := "expandable_blockquote" } ∈
        promoteBlockquotes DefaultRenderConfig.citeExpandable
          [longQuoteEntity, shortQuoteEntity] ∧
      shortQuoteEntity ∈
        promoteBlockquotes DefaultRenderConfig.citeExpandable
          [longQuoteEntity, shortQuoteEntity] :=
  ⟨((promoteBlockquotes_default [longQuoteEntity, shortQuoteEntity]).2
      longQuoteEntity (by decide) rfl).1 (by decide),
   ((promoteBlockquotes_default [longQuoteEntity, shortQuoteEntity]).2
      shortQuoteEntity (by decide) rfl).2 (by decide)⟩

/-! ### Code-block externalization threshold (claim C6) -/

theorem appendChunksLoop_mono :
    ∀ (chunks : List TextChunk) (acc res : List Content),
      appendChunksLoop chunks acc = some res → ∀ g ∈ acc, g ∈ res := by
  intro chunks
  induction chunks with
  | nil =>
    intro acc res h g hg
    simp only [appendChunksLoop, Option.some.injEq] at h
    rwa [← h]
  | cons chunk rest ih =>
    intro acc res h g hg
    simp only [appendChunksLoop] at h
    cases hs : stripNewlinesAdjust chunk.text chunk.entities with
    | none => rw [hs] at h; exact absurd h (by simp)
    | some p =>
      obtain ⟨ct, ce⟩ := p
      rw [hs] at h
      refine ih _ res h g ?_
      split
      · exact List.mem_append_left _ hg
      · exact hg

theorem appendChunksLoop_file_mem :
    ∀ (chunks : List TextChunk) (acc res : List Content),
      appendChunksLoop chunks acc = some res →
      ∀ f, Content.file f ∈ res → Content.file f ∈ acc := by
  intro chunks
  induction chunks with
  | nil =>
    intro acc res h f hf
    simp only [appendChunksLoop, Option.some.injEq] at h
    rwa [h]
  | cons chunk rest ih =>
    intro acc res h f hf
    simp only [appendChunksLoop] at h
    cases hs : stripNewlinesAdjust chunk.text chunk.entities with
    | none => rw [hs] at h; exact absurd h (by simp)
    | some p =>
      obtain ⟨ct, ce⟩ := p
      rw [hs] at h
      have hin := ih _ res h f hf
      split at hin
      · rcases List.mem_append.mp hin with h1 | h1
        · exact h1
        · simp at h1
      · exact hin

theorem appendTextChunks_mem (result : List Content) (text : List Nat)
    (entities : List MessageEntity) (maxMessageLength : Int) (res : List Content)
    (h : appendTextChunks result text entities maxMessageLength = some res) :
    (∀ g ∈ result, g ∈ res) ∧
      (∀ f, Content.file f ∈ res → Content.file f ∈ result) := by
  simp only [appendTextChunks] at h
  cases hs : SplitEntities text entities maxMessageLength with
  | none => rw [hs] at h; exact absurd h (by simp)
  | some chunks =>
    rw [hs] at h
    exact ⟨appendChunksLoop_mono _ _ _ h, appendChunksLoop_file_mem _ _ _ h⟩

theorem preSegmentText_mem (fullText : List Nat) (fullEntities : List MessageEntity)
    (maxMessageLength : Int) (result : List Content) (cursorPy cursorUTF16 : Nat)
    (seg : Segment) (result2 : List Content)
    (h : preSegmentText fullText fullEntities maxMessageLength result
      cursorPy cursorUTF16 seg = some result2) :
    (∀ g ∈ result, g ∈ result2) ∧
      (∀ f, Content.file f ∈ result2 → Content.file f ∈ result) := by
  simp only [preSegmentText] at h
  split_ifs at h
  · exact appendTextChunks_mem _ _ _ _ _ h
  · simp only [Option.some.injEq] at h
    subst h
    exact ⟨fun g hg => hg, fun f hf => hf⟩
  · simp only [Option.some.injEq] at h
    subst h
    exact ⟨fun g hg => hg, fun f hf => hf⟩

theorem emitSegment_mem (getFilename : String → String → String)
    (mermaidRender : String → Option (List Nat × String))
    (result : List Content) (seg : Segment) :
    (∀ g ∈ result, g ∈ emitSegment getFilename mermaidRender result seg) ∧
    (∀ f, Content.file f ∈ emitSegment getFilename mermaidRender result seg →
      Content.file f ∈ result ∨ f.sourceType = "mermaid" ∨
        (seg.kind = "code_block" ∧ f = handleCodeBlockAsFile getFilename seg)) ∧
    (seg.kind = "code_block" →
      Content.file (handleCodeBlockAsFile getFilename seg) ∈
        emitSegment getFilename mermaidRender result seg) := by
  unfold emitSegment handleMermaid
  split_ifs with hm hc
  · cases hr : mermaidRender seg.rawCode with
    | none =>
      refine ⟨fun g hg => List.mem_append_left _ hg, ?_, ?_⟩
      · intro f hf
        rcases List.mem_append.mp hf with h1 | h1
        · exact Or.inl h1
        · simp only [List.mem_singleton, Content.file.injEq] at h1
          subst h1
          exact Or.inr (Or.inl rfl)
      · intro hcb
        rw [hm] at hcb
        exact absurd hcb (by decide)
    | some p =>
      refine ⟨fun g hg => List.mem_append_left _ hg, ?_, ?_⟩
      · intro f hf
        rcases List.mem_append.mp hf with h1 | h1
        · exact Or.inl h1
        · simp at h1
      · intro hcb
        rw [hm] at hcb
        exact absurd hcb (by decide)
  · refine ⟨fun g hg => List.mem_append_left _ hg, ?_, ?_⟩
    · intro f hf
      rcases List.mem_append.mp hf with h1 | h1
      · exact Or.inl h1
      · simp only [List.mem_singleton, Content.file.injEq] at h1
        exact Or.inr (Or.inr ⟨hc, h1⟩)
    · intro _
      exact List.mem_append_right _ (List.mem_singleton.mpr rfl)
  · exact ⟨fun g hg => hg, fun f hf => Or.inl hf, fun hcb => absurd hcb hc⟩

theorem processSegments_mem (getFilename : String → String → String)
    (mermaidRender : String → Option (List Nat × String))
    (fullText : List Nat) (fullEntities : List MessageEntity)
    (maxMessageLength : Int) :
    ∀ (segs : List Segment) (cursorPy cursorUTF16 : Nat)
      (result res : List Content) (cp2 cu2 : Nat),
      processSegments getFilename mermaidRender fullText fullEntities
        maxMessageLength segs cursorPy cursorUTF16 result = some (res, cp2, cu2) →
      (∀ g ∈ result, g ∈ res) ∧
      (∀ f, Content.file f ∈ res → Content.file f ∈ result ∨
        f.sourceType = "mermaid" ∨
        ∃ s ∈ segs, s.kind = "code_block" ∧ f = handleCodeBlockAsFile getFilename s) ∧
      (∀ s ∈ segs, s.kind = "code_block" →
        Content.file (handleCodeBlockAsFile getFilename s) ∈ res) := by
  intro segs
  induction segs with
  | nil =>
    intro cp cu result res cp2 cu2 h
    simp only [processSegments, Option.some.injEq, Prod.mk.injEq] at h
    obtain ⟨h1, _, _⟩ := h
    subst h1
    exact ⟨fun g hg => hg, fun f hf => Or.inl hf, by simp⟩
  | cons seg rest ih =>
    intro cp cu result res cp2 cu2 h
    simp only [processSegments] at h
    cases hpre : preSegmentText fullText fullEntities maxMessageLength result cp cu seg with
    | none => rw [hpre] at h; exact absurd h (by simp)
    | some result2 =>
      rw [hpre] at h
      obtain ⟨hmono2, hfile2, hemit2⟩ := ih seg.textEnd seg.utf16End _ res cp2 cu2 h
      obtain ⟨hpremono, hprefile⟩ :=
        preSegmentText_mem fullText fullEntities maxMessageLength result cp cu seg
          result2 hpre
      obtain ⟨hemono, hefile, heemit⟩ := emitSegment_mem getFilename mermaidRender result2 seg
      refine ⟨?_, ?_, ?_⟩
      · intro g hg
        exact hmono2 g (hemono g (hpremono g hg))
      · intro f hf
        rcases hfile2 f hf with h1 | h1 | ⟨s, hs, hsk, hfe⟩
        · rcases hefile f h1 with h2 | h2 | ⟨hk, hfe⟩
          · exact Or.inl (hprefile f h2)
          · exact Or.inr (Or.inl h2)
          · exact Or.inr (Or.inr ⟨seg, List.mem_cons_self seg rest, hk, hfe⟩)
        · exact Or.inr (Or.inl h1)
        · exact Or.inr (Or.inr ⟨s, List.mem_cons_of_mem seg hs, hsk, hfe⟩)
      · intro s hs hsk
        rcases List.mem_cons.mp hs with rfl | hs2
        · exact hmono2 _ (heemit hsk)
        · exact hemit2 s hs2 hsk

/-- Claim C6: in the pipeline, a code-block segment whose recorded raw source
has exactly 50 lines is never externalized: it is not selected, and every
`File` content of the output is either a mermaid fallback or built by
`handleCodeBlockAsFile` from a selected code-block segment.  A 51-line
code-block segment present in the input is externalized as a `File` whose data
equals its raw source exactly. -/
theorem codeBlock_externalization_threshold
    (getFilename : String → String → String)
    (mermaidRender : String → Option (List Nat × String))
    (trimSpace : List Nat → List Nat)
    (fullText : List Nat) (fullEntities : List MessageEntity)
    (segments : List Segment) (maxMessageLength0 : Int) (contents : List Content)
    (hrun : ProcessMarkdownModel getFilename mermaidRender trimSpace fullText
      fullEntities segments maxMessageLength0 = some contents)
    (seg : Segment) (hkind : seg.kind = "code_block") :
    (∀ f, Content.file f ∈ contents → f.sourceType = "mermaid" ∨
      ∃ s ∈ extractableSegments segments, s.kind = "code_block" ∧
        f = handleCodeBlockAsFile getFilename s) ∧
    (goLineCount seg.rawCode = 50 → seg ∉ extractableSegments segments) ∧
    (goLineCount seg.rawCode = 51 → seg ∈ segments →
      Content.file (handleCodeBlockAsFile getFilename seg) ∈ contents ∧
      (handleCodeBlockAsFile getFilename seg).fileData = seg.rawCode) := by
  simp only [ProcessMarkdownModel] at hrun
  cases hps : processSegments getFilename mermaidRender fullText fullEntities
      (if maxMessageLength0 ≤ 0 then 4096 else maxMessageLength0)
      (extractableSegments segments) 0 0 [] with
  | none => rw [hps] at hrun; exact absurd hrun (by simp)
  | some trip =>
    obtain ⟨res, cp2, cu2⟩ := trip
    rw [hps] at hrun
    try dsimp only at hrun
    obtain ⟨hmono0, hfile0, hemit0⟩ :=
      processSegments_mem getFilename mermaidRender fullText fullEntities
        (if maxMessageLength0 ≤ 0 then 4096 else maxMessageLength0)
        (extractableSegments segments) 0 0 [] res cp2 cu2 hps
    have hstep : (∀ g ∈ res, g ∈ contents) ∧
        (∀ f, Content.file f ∈ contents → Content.file f ∈ res) := by
      have hfinal : ∀ (result2 : List Content),
          (if result2.length = 0 ∧ trimSpace fullText ≠ [] then
            appendTextChunks result2 (trimSpace fullText) fullEntities
              (if maxMessageLength0 ≤ 0 then 4096 else maxMessageLength0)
          else some result2) = some contents →
          (∀ g ∈ result2, g ∈ contents) ∧
            (∀ f, Content.file f ∈ contents → Content.file f ∈ result2) := by
        intro result2 hf
        split_ifs at hf
        · exact appendTextChunks_mem _ _ _ _ _ hf
        · exact appendTextChunks_mem _ _ _ _ _ hf
        · simp only [Option.some.injEq] at hf
          subst hf
          exact ⟨fun g hg => hg, fun f hff => hff⟩
      by_cases hcp : cp2 < fullText.length
      · rw [if_pos hcp] at hrun
        cases hsn : stripNewlinesAdjust
            (sliceTextEntities fullText fullEntities cp2 fullText.length
              (cu2 : Int) (UTF16Len fullText : Int)).1
            (sliceTextEntities fullText fullEntities cp2 fullText.length
              (cu2 : Int) (UTF16Len fullText : Int)).2 with
        | none => rw [hsn] at hrun; exact absurd hrun (by simp)
        | some p =>
          obtain ⟨t2, e2⟩ := p
          rw [hsn] at hrun
          try dsimp only at hrun
          by_cases ht2 : t2 ≠ []
          · rw [if_pos ht2] at hrun
            cases hat : appendTextChunks res t2 e2
                (if maxMessageLength0 ≤ 0 then 4096 else maxMessageLength0) with
            | none => rw [hat] at hrun; exact absurd hrun (by simp)
            | some result2 =>
              rw [hat] at hrun
              try dsimp only at hrun
              obtain ⟨hm1, hm2⟩ := hfinal result2 hrun
              obtain ⟨ha1, ha2⟩ := appendTextChunks_mem _ _ _ _ _ hat
              exact ⟨fun g hg => hm1 g (ha1 g hg),
                fun f hff => ha2 f (hm2 f hff)⟩
          · rw [if_neg ht2] at hrun
            exact hfinal res hrun
      · rw [if_neg hcp] at hrun
        exact hfinal res hrun
    refine ⟨?_, ?_, ?_⟩
    · intro f hf
      rcases hfile0 f (hstep.2 f hf) with h1 | h1 | h1
      · simp at h1
      · exact Or.inl h1
      · exact Or.inr h1
    · intro h50 hmem
      obtain ⟨_, hp⟩ := List.mem_filter.mp hmem
      rw [hkind, h50] at hp
      simp at hp
    · intro h51 hmem
      have hex : seg ∈ extractableSegments segments := by
        refine List.mem_filter.mpr ⟨hmem, ?_⟩
        rw [hkind, h51]
        simp
      exact ⟨hstep.1 _ (hemit0 seg hex hkind), rfl⟩

/-- A 50-line code-block segment (49 newline characters) for the C6
witness. -/
def fiftyLineSegment : Segment :=
  { kind := "code_block", textStart := 0, textEnd := 0, utf16Start := 0,
    utf16End := 0, language := "go", rawCode := (List.replicate 49 '\x0A').asString }

/-- A 51-line code-block segment (50 newline characters) for the C6
witness. -/
def fiftyOneLineSegment : Segment :=
  { kind := "code_block", textStart := 0, textEnd := 0, utf16Start := 0,
    utf16End := 0, language := "go", rawCode := (List.replicate 50 '\x0A').asString }

/-- Witness for claim C6: a concrete pipeline run over a 50-line and a
51-line code-block segment: the output contains exactly the file built from
the 51-line segment, the 50-line one is not selected, and the file data is the
51-line raw source. -/
theorem codeBlock_externalization_threshold_witness :
    fiftyLineSegment ∉
        extractableSegments [fiftyLineSegment, fiftyOneLineSegment] ∧
      Content.file (handleCodeBlockAsFile (fun _ _ => "readable.go") fiftyOneLineSegment) ∈
        [Content.file (handleCodeBlockAsFile (fun _ _ => "readable.go") fiftyOneLineSegment)] ∧
      (handleCodeBlockAsFile (fun _ _ => "readable.go") fiftyOneLineSegment).fileData =
        fiftyOneLineSegment.rawCode :=
  ⟨(codeBlock_externalization_threshold (fun _ _ => "readable.go") (fun _ => none)
      (fun x => x) [] [] [fiftyLineSegment, fiftyOneLineSegment] 4096
      [Content.file (handleCodeBlockAsFile (fun _ _ => "readable.go") fiftyOneLineSegment)]
      (by decide) fiftyLineSegment rfl).2.1 (by decide),
   ((codeBlock_externalization_threshold (fun _ _ => "readable.go") (fun _ => none)
      (fun x => x) [] [] [fiftyLineSegment, fiftyOneLineSegment] 4096
      [Content.file (handleCodeBlockAsFile (fun _ _ => "readable.go") fiftyOneLineSegment)]
      (by decide) fiftyOneLineSegment rfl).2.2 (by decide) (by decide)).1,
   ((codeBlock_externalization_threshold (fun _ _ => "readable.go") (fun _ => none)
      (fun x => x) [] [] [fiftyLineSegment, fiftyOneLineSegment] 4096
      [Content.file (handleCodeBlockAsFile (fun _ _ => "readable.go") fiftyOneLineSegment)]
      (by decide) fiftyOneLineSegment rfl).2.2 (by decide) (by decide)).2⟩

/-! ### Custom-emoji links (claim C4) -/

/-- Claim C4, violated by the code: for a link whose destination is the
custom-emoji scheme with a valid 19-digit id and non-empty link text,
`onStartLink` pushes a `custom_emoji` scope, but the walker's `Link` exit
handler runs `popEntity("text_link")`, which does not match it; the scope is
left open on the stack and no entity at all is emitted — neither
`custom_emoji` nor `text_link`. -/
theorem emoji_link_emits_no_entity :
    validateTelegramEmoji "tg://emoji?id=1234567890123456789" =
        "1234567890123456789" ∧
      (walkLinkNode initialWalker "tg://emoji?id=1234567890123456789" "abc").entities =
        [] ∧
      (walkLinkNode initialWalker "tg://emoji?id=1234567890123456789" "abc").entityStack =
        [{ entityType := "custom_emoji", startOffset := 0, url := "", language := "",
           customEmojiID := "1234567890123456789" }] := by
  decide

end Telegramify
